import Mathlib

/-!
Shallow embedding of the `transcriber` pipeline core
(`src/models/tasks.py`, `src/models/stats.py`, `src/transcription/manager.py`,
`src/transcription/splitter.py`, `src/transcription/audio_transcriber.py`,
`src/cli.py`), together with theorems settling the specification claims.

Machine state that Python keeps in objects (the task registry, the bounded
queue, the transcripts directory on disk) is modelled as explicit state records
threaded through the operations.  External effects (ffmpeg extraction success,
the remote transcription API) are modelled as oracle parameters.  Real-number
quantities (durations, byte sizes, progress percentages) are modelled over ℚ.
-/

namespace Transcriber

/-! ### Task model — `src/models/tasks.py` -/

/-- `TaskStatus` enum from `models/tasks.py`. -/
inductive TaskStatus
  | pending
  | downloading
  | splitting
  | transcribing
  | merging
  | completed
  | failed
  | cancelled
  | paused
  deriving DecidableEq, Repr

/-- A `TranscriptionTask`: the Python object identity is modelled by the
numeric `id` (Python uses a uuid; all that matters is freshness). -/
structure TranscriptionTask where
  id : Nat
  url : String
  status : TaskStatus := .pending
  error : Option String := none
  deriving DecidableEq, Repr

/-- `TranscriptionTask.update_status`: sets the status field. -/
def TranscriptionTask.update_status (t : TranscriptionTask) (st : TaskStatus) :
    TranscriptionTask :=
  { t with status := st }

/-- `TranscriptionTask.set_error`. -/
def TranscriptionTask.set_error (t : TranscriptionTask) (msg : String) :
    TranscriptionTask :=
  { t with error := some msg }

/-- `TranscriptionTask.can_resume`: status ∈ {FAILED, CANCELLED, PAUSED}. -/
def TranscriptionTask.can_resume (t : TranscriptionTask) : Bool :=
  t.status == .failed || t.status == .cancelled || t.status == .paused

/-! ### Processing statistics — `src/models/stats.py` -/

/-- The fields of `ProcessingStats` relevant to progress computation.
`speed`, `eta` and the timestamps are carried by the Python dataclass but do
not feed into `progress`. -/
structure ProcessingStats where
  total_bytes : Int := 0
  downloaded_bytes : Int := 0
  progress : ℚ := 0
  deriving DecidableEq, Repr

instance : Inhabited ProcessingStats := ⟨{}⟩

/-- `ProcessingStats.update` restricted to the byte counters: the kwargs that
are set overwrite the corresponding fields, then `progress` is recomputed as
`min(100.0, downloaded_bytes / total_bytes * 100)` when `total_bytes > 0`,
and `0.0` otherwise. -/
def ProcessingStats.update (s : ProcessingStats)
    (total? downloaded? : Option Int) : ProcessingStats :=
  let s₁ :=
    match total? with
    | some t => { s with total_bytes := t }
    | none => s
  let s₂ :=
    match downloaded? with
    | some d => { s₁ with downloaded_bytes := d }
    | none => s₁
  if 0 < s₂.total_bytes then
    { s₂ with
      progress :=
        min 100 ((s₂.downloaded_bytes : ℚ) / (s₂.total_bytes : ℚ) * 100) }
  else
    { s₂ with progress := 0 }

/-! ### Manager — `src/transcription/manager.py`

The registry (`self.tasks`), the bounded FIFO queue (`self.task_queue`, which
holds references to task objects, modelled by their ids) and the uuid
generator (modelled as the counter `next_id`) form the manager state. -/

structure ManagerState where
  tasks : List TranscriptionTask
  task_queue : List Nat
  max_queue_size : Nat
  next_id : Nat
  deriving DecidableEq, Repr

/-- `queue.Queue.put(task, block=False)` succeeds unless the queue is bounded
(`maxsize > 0`) and currently holds `maxsize` items. -/
def ManagerState.queueHasRoom (s : ManagerState) : Bool :=
  s.max_queue_size == 0 || s.task_queue.length < s.max_queue_size

/-- `TranscriptionManager.add_task`: reject a duplicate URL; otherwise create
the task, append it to the registry, and try a non-blocking enqueue.  On
`queue.Full` the just-created task object is removed from the registry again
(`self.tasks.remove(task)` removes it by object identity, i.e. by its fresh
id) and the call reports failure. -/
def add_task (s : ManagerState) (url : String) : Bool × ManagerState :=
  if s.tasks.any (fun t => t.url == url) then
    (false, s)
  else
    let task : TranscriptionTask := { id := s.next_id, url := url }
    let s₁ : ManagerState :=
      { s with tasks := s.tasks ++ [task], next_id := s.next_id + 1 }
    if s₁.queueHasRoom then
      (true, { s₁ with task_queue := s₁.task_queue ++ [task.id] })
    else
      (false, { s₁ with tasks := s₁.tasks.erase task })

/-- `TranscriptionManager.resume_task` on the registry task with id `tid`:
if the task can resume, its status is reset to PENDING and it is re-enqueued;
otherwise the call only logs and changes nothing. -/
def resume_task (s : ManagerState) (tid : Nat) : ManagerState :=
  match s.tasks.find? (fun t => t.id == tid) with
  | none => s
  | some task =>
    if task.can_resume then
      { s with
        tasks := s.tasks.map
          (fun t => if t.id == tid then t.update_status .pending else t),
        task_queue := s.task_queue ++ [tid] }
    else
      s

/-! ### Audio splitter — `src/transcription/splitter.py`

`split_audio` is a function of the probed total duration (seconds), the source
file size (bytes), the configuration, an oracle `ok i` saying whether the
ffmpeg extraction of chunk `i` succeeded, and a naming function `stem i`
standing for the filename stem `chunk_{i:03d}_{start}_{end}` (which only
serves as the key tying a chunk to its transcript files). -/

structure SplitterConfig where
  chunk_max_size_bytes : ℚ
  chunk_duration_sec : ℚ
  deriving Repr

/-- One entry of the chunk manifest (`create_chunk_metadata`):
`duration_ms` is recorded as `end_ms - start_ms`. -/
structure ChunkInfo where
  chunk_index : Nat
  stem : String
  start_ms : ℚ
  end_ms : ℚ
  duration_ms : ℚ
  deriving DecidableEq, Repr

/-- `AudioSplitter.create_chunk_metadata` (the fields the pipeline reads). -/
def create_chunk_metadata (stem : String) (start_ms end_ms : ℚ)
    (chunk_index : Nat) : ChunkInfo :=
  { chunk_index := chunk_index
    stem := stem
    start_ms := start_ms
    end_ms := end_ms
    duration_ms := end_ms - start_ms }

/-- Chunk `i` starts at the equal-split point `i * chunk_duration_sec`
(seconds); the start is never adjusted by the size cap. -/
def chunkStart (cfg : SplitterConfig) (i : Nat) : ℚ :=
  (i : ℚ) * cfg.chunk_duration_sec

/-- Chunk `i` ends at `min ((i+1) * chunk_duration_sec) total_duration`,
unless the estimated chunk size `(duration / total_duration) * file_size`
exceeds `chunk_max_size_bytes`, in which case the duration is shrunk
proportionally so the estimate fits the cap. -/
def chunkEnd (cfg : SplitterConfig) (total_duration file_size : ℚ)
    (i : Nat) : ℚ :=
  let start_time := chunkStart cfg i
  let end_time := min (((i : ℚ) + 1) * cfg.chunk_duration_sec) total_duration
  let duration := end_time - start_time
  let estimated := (duration / total_duration) * file_size
  if cfg.chunk_max_size_bytes < estimated then
    start_time + duration * (cfg.chunk_max_size_bytes / estimated)
  else
    end_time

/-- `AudioSplitter.split_audio`: `num_chunks = max 1 ⌈D / T⌉` chunks are
attempted; a chunk whose extraction fails is skipped (logged, loop continues);
manifest entries carry millisecond offsets.  If no chunk succeeds the stage
returns `none` (Python returns `None`). -/
def num_chunks (cfg : SplitterConfig) (total_duration : ℚ) : ℕ :=
  max 1 (⌈total_duration / cfg.chunk_duration_sec⌉).toNat

def splitChunksInfo (cfg : SplitterConfig) (total_duration file_size : ℚ)
    (ok : Nat → Bool) (stem : Nat → String) : List ChunkInfo :=
  (List.range (num_chunks cfg total_duration)).filterMap fun i =>
    if ok i then
      some (create_chunk_metadata (stem i)
        (chunkStart cfg i * 1000) (chunkEnd cfg total_duration file_size i * 1000) i)
    else
      none

def split_audio (cfg : SplitterConfig) (total_duration file_size : ℚ)
    (ok : Nat → Bool) (stem : Nat → String) : Option (List ChunkInfo) :=
  if (splitChunksInfo cfg total_duration file_size ok stem).isEmpty then
    none
  else
    some (splitChunksInfo cfg total_duration file_size ok stem)

/-! ### Transcriber — `src/transcription/audio_transcriber.py`

The transcripts directory on disk is modelled as an association list from a
chunk's filename stem to the parsed content of its persisted `.json`
transcript (`none` in a lookup = the file is missing or unparseable), plus the
list of files written under `transcripts/merged/`.  The remote API (together
with everything else that can make `transcribe_chunk` fail for one chunk) is
an oracle from the chunk stem to an optional transcription result. -/

/-- One segment of a transcription result; `«end»` is the JSON `end` field. -/
structure Segment where
  start : ℚ
  «end» : ℚ
  deriving DecidableEq, Repr

/-- The part of a persisted per-chunk transcription JSON that merging reads:
`chunk_data['transcription']['text']` and `...['segments']`. -/
structure Transcription where
  text : String
  segments : List Segment
  deriving DecidableEq, Repr

/-- The merged JSON document built by `merge_transcripts` (the fields the
claims are about; `merged_at`/the filename timestamp make two runs of merge
distinguishable). -/
structure MergedJson where
  text : String
  segments : List Segment
  total_words : Nat
  duration_seconds : ℚ
  merged_at : String
  deriving DecidableEq, Repr

/-- The transcripts directory: per-chunk files keyed by stem, and the files
under `merged/` (kept apart because `merged` is a subdirectory and chunk
stems, being single path components, cannot name into it). -/
structure TranscriptsFS where
  files : List (String × Transcription)
  merged : List MergedJson
  deriving DecidableEq, Repr

/-- Python `str.strip()`: drop whitespace from both ends. -/
def pyStrip (s : String) : String :=
  ⟨((s.data.dropWhile Char.isWhitespace).reverse.dropWhile
      Char.isWhitespace).reverse⟩

/-- Helper for Python `str.split()` (no separator argument): accumulate the
current word (reversed) and break on whitespace runs. -/
def wordsAux : List Char → List Char → List (List Char)
  | [], cur => if cur.isEmpty then [] else [cur.reverse]
  | ch :: rest, cur =>
    if ch.isWhitespace then
      if cur.isEmpty then wordsAux rest [] else cur.reverse :: wordsAux rest []
    else
      wordsAux rest (ch :: cur)

/-- Python `str.split()`: maximal runs of non-whitespace characters. -/
def pySplit (s : String) : List String :=
  (wordsAux s.data []).map (fun l => ⟨l⟩)

/-- Python `str.lower()` (ASCII case folding suffices here). -/
def pyLower (s : String) : String :=
  ⟨s.data.map Char.toLower⟩

/-- Whether `p` is a leading substring of `s` (the `re.match(r'^...')`
anchored test for a literal pattern). -/
def strStartsWith (s p : String) : Bool :=
  p.data.isPrefixOf s.data

/-- `len(text.split())`: number of maximal whitespace-separated words. -/
def wordCount (s : String) : Nat :=
  (pySplit s).length

/-- Writing a per-chunk transcript file: the new content shadows any previous
file with the same stem. -/
def writeTranscript (files : List (String × Transcription)) (stem : String)
    (tr : Transcription) : List (String × Transcription) :=
  (stem, tr) :: files

/-- `AudioTranscriber.transcribe_chunk` for the chunk with filename stem
`stem`: on API success the `.json`/`.txt` pair is persisted and the call
returns true; on any failure nothing is written and it returns false. -/
def transcribe_chunk (api : String → Option Transcription)
    (files : List (String × Transcription)) (stem : String) :
    Bool × List (String × Transcription) :=
  match api stem with
  | none => (false, files)
  | some tr => (true, writeTranscript files stem tr)

/-- `AudioTranscriber.transcribe_all_chunks`: with an empty chunk list the
guard raises and the stage fails; otherwise every chunk is processed in
manifest order, `all_success` is and-ed with each chunk's outcome, and the
stems are recorded in the order the chunks were attempted.  Returns
(overall success, transcript files on disk, attempted stems in order).
`transcribeStep` is the body of the per-chunk loop. -/
def transcribeStep (api : String → Option Transcription)
    (acc : Bool × List (String × Transcription) × List String)
    (c : ChunkInfo) : Bool × List (String × Transcription) × List String :=
  let r := transcribe_chunk api acc.2.1 c.stem
  (acc.1 && r.1, r.2, acc.2.2 ++ [c.stem])

def transcribe_all_chunks (api : String → Option Transcription)
    (files : List (String × Transcription)) (chunks : List ChunkInfo) :
    Bool × List (String × Transcription) × List String :=
  if chunks.isEmpty then
    (false, files, [])
  else
    chunks.foldl (transcribeStep api) (true, files, [])

/-! #### Merge — `AudioTranscriber.merge_transcripts` -/

/-- The accumulator of the merge loop: `merged_text`, `merged_segments`,
`total_duration` (seconds) and `total_words`. -/
structure MergeAcc where
  merged_text : List String
  merged_segments : List Segment
  total_duration : ℚ
  total_words : Nat
  deriving DecidableEq, Repr

/-- One iteration of the merge loop over a manifest entry: a missing (or
unparseable) transcript file is skipped entirely; otherwise the stripped text
(if non-empty) is appended and counted, the segments are shifted by the
running `total_duration`, and only then is this chunk's manifest
`duration_ms / 1000` added to `total_duration`. -/
def processChunk (files : List (String × Transcription)) (acc : MergeAcc)
    (c : ChunkInfo) : MergeAcc :=
  match List.lookup c.stem files with
  | none => acc
  | some tr =>
    let text := pyStrip tr.text
    let acc₁ :=
      if text = "" then acc
      else
        { acc with
          merged_text := acc.merged_text ++ [text]
          total_words := acc.total_words + wordCount text }
    let acc₂ :=
      { acc₁ with
        merged_segments := acc₁.merged_segments ++
          tr.segments.map (fun (seg : Segment) =>
            ({ start := seg.start + acc.total_duration
               «end» := seg.«end» + acc.total_duration } : Segment)) }
    { acc₂ with total_duration := acc₂.total_duration + c.duration_ms / 1000 }

/-- Stable insertion of a chunk into a list sorted by `chunk_index` (equal
keys keep their original relative order, as Python's stable `sorted` does). -/
def insertByIndex (c : ChunkInfo) : List ChunkInfo → List ChunkInfo
  | [] => [c]
  | d :: ds =>
    if c.chunk_index ≤ d.chunk_index then c :: d :: ds
    else d :: insertByIndex c ds

/-- `sorted(chunks_info, key=lambda x: x.get("chunk_index", 0))`. -/
def sortChunks (l : List ChunkInfo) : List ChunkInfo :=
  l.foldr insertByIndex []

/-- The merge loop: fold `processChunk` over the manifest sorted by chunk
index, starting from the empty accumulator. -/
def mergeAcc (files : List (String × Transcription))
    (chunks : List ChunkInfo) : MergeAcc :=
  (sortChunks chunks).foldl (processChunk files) ⟨[], [], 0, 0⟩

/-- The merged JSON document: collected non-empty chunk texts joined by a
blank line, the time-shifted segments, and the aggregate totals. -/
def mergeDoc (files : List (String × Transcription))
    (chunks : List ChunkInfo) (timestamp : String) : MergedJson :=
  { text := String.intercalate "\n\n" (mergeAcc files chunks).merged_text
    segments := (mergeAcc files chunks).merged_segments
    total_words := (mergeAcc files chunks).total_words
    duration_seconds := (mergeAcc files chunks).total_duration
    merged_at := timestamp }

/-- `AudioTranscriber.merge_transcripts`: fails on an empty manifest; sorts
the manifest by chunk index; folds `processChunk` over it; fails if no
non-empty text was collected; otherwise writes the merged `.json`/`.txt` pair
into `merged/` and returns the merged document.  The per-chunk transcript
files are only read. -/
def merge_transcripts (fs : TranscriptsFS) (chunks : List ChunkInfo)
    (timestamp : String) : Option MergedJson × TranscriptsFS :=
  if chunks.isEmpty then
    (none, fs)
  else if (mergeAcc fs.files chunks).merged_text.isEmpty then
    (none, fs)
  else
    (some (mergeDoc fs.files chunks timestamp),
      { fs with merged := fs.merged ++ [mergeDoc fs.files chunks timestamp] })

/-- The merge behavior required by spec §4.4, stated in its own words for
comparison with `merge_transcripts`: walking the manifest in index order, the
sub-segments of chunk `i` (when its transcript file is present) are shifted by
the cumulative manifest duration of all prior chunks `0..i-1`, whether or not
those chunks' transcript files were themselves present. -/
def specMergedSegments (files : List (String × Transcription)) :
    List ChunkInfo → ℚ → List Segment
  | [], _ => []
  | c :: cs, d =>
    (match List.lookup c.stem files with
     | none => []
     | some tr => tr.segments.map (fun seg =>
         ({ start := seg.start + d, «end» := seg.«end» + d } : Segment))) ++
    specMergedSegments files cs (d + c.duration_ms / 1000)

/-! ### CLI admission — `src/cli.py`, `TranscriptionUI.handle_input`

Only the dispatch decision is modelled: which action the input text leads to,
and in particular whether `manager.add_task` is ever invoked. -/

inductive CliAction
  | quit
  | clearLog
  | showHelp
  | listTasks
  | cancelCmd (arg : Option String)
  | resumeCmd (arg : Option String)
  | addTask (url : String)
  | invalid
  | ignore
  deriving DecidableEq, Repr

/-- `handle_input`: strip the buffer text; ignore empty input; split off the
first word as the (lowercased) command; dispatch known commands; otherwise
call `add_task` exactly when the text matches the regular expression
`^https?://`; anything else is reported as an invalid command. -/
def handle_input (text : String) : CliAction :=
  let t := pyStrip text
  if t = "" then .ignore
  else
    match pySplit t with
    | [] => .ignore
    | cmd :: args =>
      let c := pyLower cmd
      if c = "quit" then .quit
      else if c = "clear" then .clearLog
      else if c = "help" then .showHelp
      else if c = "list" then .listTasks
      else if c = "cancel" then .cancelCmd args.head?
      else if c = "resume" then .resumeCmd args.head?
      else if strStartsWith t "http://" || strStartsWith t "https://" then .addTask t
      else .invalid

/-! ### Concrete instances used by counterexamples and witnesses -/

/-- A fresh manager: empty registry, empty queue, queue capacity 2. -/
def mgr0 : ManagerState :=
  { tasks := [], task_queue := [], max_queue_size := 2, next_id := 0 }

/-- A manager whose bounded queue (capacity 2) is full. -/
def mgrFull : ManagerState :=
  { tasks := [{ id := 0, url := "http://a" }, { id := 1, url := "http://b" }]
    task_queue := [0, 1]
    max_queue_size := 2
    next_id := 2 }

/-- A failed task, eligible for resume. -/
def resumeDemoTask : TranscriptionTask :=
  { id := 0, url := "http://u", status := .failed }

/-- A manager holding just `resumeDemoTask`. -/
def resumeDemoState : ManagerState :=
  { tasks := [resumeDemoTask], task_queue := [], max_queue_size := 2, next_id := 1 }

/-- Counterexample manifest chunk 0 (100 s), whose transcript file will be
missing. -/
def cexChunk0 : ChunkInfo :=
  { chunk_index := 0, stem := "c0", start_ms := 0, end_ms := 100000,
    duration_ms := 100000 }

/-- Counterexample manifest chunk 1 (100 s), with a transcript present. -/
def cexChunk1 : ChunkInfo :=
  { chunk_index := 1, stem := "c1", start_ms := 100000, end_ms := 200000,
    duration_ms := 100000 }

/-- A transcripts directory holding a transcript only for `c1`, with one
segment at chunk-local offsets 10–20 s. -/
def cexFS : TranscriptsFS :=
  { files := [("c1", { text := "hello", segments := [{ start := 10, «end» := 20 }] })]
    merged := [] }

/-- Witness manifest: three chunks of actual durations 100 s, 95 s, 100 s. -/
def witChunk0 : ChunkInfo :=
  { chunk_index := 0, stem := "w0", start_ms := 0, end_ms := 100000,
    duration_ms := 100000 }

/-- Second witness chunk: 95 s (shrunk below the 100 s target). -/
def witChunk1 : ChunkInfo :=
  { chunk_index := 1, stem := "w1", start_ms := 100000, end_ms := 195000,
    duration_ms := 95000 }

/-- Third witness chunk: 100 s, holding a segment at local offset 10 s. -/
def witChunk2 : ChunkInfo :=
  { chunk_index := 2, stem := "w2", start_ms := 200000, end_ms := 300000,
    duration_ms := 100000 }

/-- A transcripts directory with all three witness chunks present; chunk 2
has one segment at chunk-local offsets 10–12 s. -/
def witFS : TranscriptsFS :=
  { files := [("w0", { text := "a", segments := [] }),
              ("w1", { text := "b", segments := [] }),
              ("w2", { text := "c", segments := [{ start := 10, «end» := 12 }] })]
    merged := [] }

/-- A transcription API behavior that fails on the chunk with stem `s0` and
succeeds on the chunk with stem `s1`. -/
def apiDemo : String → Option Transcription := fun st =>
  if st = "s1" then some { text := "hello", segments := [] } else none

/-- A 100-second chunk with stem `s0`. -/
def chunkS0 : ChunkInfo :=
  { chunk_index := 0, stem := "s0", start_ms := 0, end_ms := 100000,
    duration_ms := 100000 }

/-- A 100-second chunk with stem `s1`. -/
def chunkS1 : ChunkInfo :=
  { chunk_index := 1, stem := "s1", start_ms := 100000, end_ms := 200000,
    duration_ms := 100000 }

/-! ## Theorems -/

/-- `ProcessingStats.update` leaves the byte counters as overwritten and
recomputes `progress` from them by the clamped formula. -/
lemma update_progress_eq (s : ProcessingStats) (total? downloaded? : Option Int) :
    (s.update total? downloaded?).progress =
      (if 0 < (s.update total? downloaded?).total_bytes
       then min 100 (((s.update total? downloaded?).downloaded_bytes : ℚ) /
              ((s.update total? downloaded?).total_bytes : ℚ) * 100)
       else 0) := by
  rcases total? with _ | t <;> rcases downloaded? with _ | d <;>
    simp only [ProcessingStats.update] <;> split <;> simp_all

/-- C6 (amended): after any `ProcessingStats.update` of the byte counters,
`progress` is at most 100 and equals 0 whenever `total_bytes ≤ 0`; whenever
`downloaded_bytes` is non-negative it lies in [0,100]; and when
`total_bytes > 0` it equals `min 100 (downloaded/total*100)` — the clamp is
one-sided, so a negative `downloaded_bytes` drives it below 0, and a
`downloaded_bytes` above `total_bytes` is clamped to 100 rather than kept at
`downloaded/total*100`. -/
theorem stats_update_progress_bounds (s : ProcessingStats)
    (total? downloaded? : Option Int) :
    (s.update total? downloaded?).progress ≤ 100 ∧
    ((s.update total? downloaded?).total_bytes ≤ 0 →
      (s.update total? downloaded?).progress = 0) ∧
    (0 ≤ (s.update total? downloaded?).downloaded_bytes →
      0 ≤ (s.update total? downloaded?).progress ∧
      (s.update total? downloaded?).progress ≤ 100) ∧
    (0 < (s.update total? downloaded?).total_bytes →
      (s.update total? downloaded?).progress =
        min 100 (((s.update total? downloaded?).downloaded_bytes : ℚ) /
          ((s.update total? downloaded?).total_bytes : ℚ) * 100)) := by
  rw [update_progress_eq]
  by_cases htot : 0 < (s.update total? downloaded?).total_bytes
  · have htq : (0 : ℚ) < ((s.update total? downloaded?).total_bytes : ℚ) := by
      exact_mod_cast htot
    refine ⟨by simp [htot, min_le_left], fun h => absurd htot (by omega), ?_,
      fun _ => by simp [htot]⟩
    intro hd
    have hdq : (0 : ℚ) ≤ ((s.update total? downloaded?).downloaded_bytes : ℚ) := by
      exact_mod_cast hd
    constructor
    · simp only [htot, if_true]
      refine le_min (by norm_num) ?_
      positivity
    · simp [htot, min_le_left]
  · refine ⟨by simp [htot], fun _ => by simp [htot], fun _ => ?_,
      fun h => absurd h htot⟩
    simp [htot]

/-- C6 witness: a concrete update with 50 of 200 bytes downloaded keeps
progress within [0,100]. -/
theorem stats_update_progress_bounds_witness :
    0 ≤ (ProcessingStats.update {} (some 200) (some 50)).downloaded_bytes ∧
    0 ≤ (ProcessingStats.update {} (some 200) (some 50)).progress ∧
    (ProcessingStats.update {} (some 200) (some 50)).progress ≤ 100 :=
  ⟨by decide,
   ((stats_update_progress_bounds {} (some 200) (some 50)).2.2.1 (by decide)).1,
   ((stats_update_progress_bounds {} (some 200) (some 50)).2.2.1 (by decide)).2⟩

/-- C6 counterexample: updating with `total_bytes = 1, downloaded_bytes = -1`
yields `progress = -100 ∉ [0,100]`, and updating with
`total_bytes = 1, downloaded_bytes = 2` yields 100, not
`downloaded/total*100 = 200` — refuting both "always in [0,100]" over all
byte-counter values and the unclamped recomputation formula. -/
theorem stats_update_progress_counterexample :
    (ProcessingStats.update {} (some 1) (some (-1))).progress = -100 ∧
    ¬ (0 ≤ (ProcessingStats.update {} (some 1) (some (-1))).progress) ∧
    (ProcessingStats.update {} (some 1) (some 2)).progress = 100 ∧
    ((ProcessingStats.update {} (some 1) (some 2)).downloaded_bytes : ℚ) /
      ((ProcessingStats.update {} (some 1) (some 2)).total_bytes : ℚ) * 100 = 200 ∧
    (100 : ℚ) ≠ 200 := by
  refine ⟨?_, ?_, ?_, ?_, ?_⟩ <;> norm_num [ProcessingStats.update]

/-- C9: `resume_task` on a registry task resets the status to PENDING and
re-enqueues the task exactly when its status is FAILED, CANCELLED or PAUSED;
for any other status (PENDING included, so a second resume of a still-pending
task) the call changes neither the registry nor the queue. -/
theorem resume_task_spec (s : ManagerState) (tid : Nat)
    (task : TranscriptionTask)
    (hfind : s.tasks.find? (fun t => t.id == tid) = some task) :
    (task.can_resume = true ↔
      (task.status = .failed ∨ task.status = .cancelled ∨ task.status = .paused)) ∧
    (task.can_resume = false → resume_task s tid = s) ∧
    (task.can_resume = true →
      (resume_task s tid).task_queue = s.task_queue ++ [tid] ∧
      (resume_task s tid).tasks = s.tasks.map
        (fun t => if t.id == tid then t.update_status .pending else t) ∧
      ∀ t ∈ (resume_task s tid).tasks, t.id = tid → t.status = .pending) := by
  refine ⟨?_, ?_, ?_⟩
  · simp [TranscriptionTask.can_resume, or_assoc]
  · intro hcr
    simp [resume_task, hfind, hcr]
  · intro hcr
    refine ⟨by simp [resume_task, hfind, hcr], by simp [resume_task, hfind, hcr], ?_⟩
    intro t ht htid
    simp only [resume_task, hfind, hcr, if_true] at ht
    rcases List.mem_map.mp ht with ⟨orig, _, rfl⟩
    by_cases hid : (orig.id == tid) = true
    · simp [hid, TranscriptionTask.update_status]
    · rw [if_neg hid] at htid ⊢
      exact absurd (beq_iff_eq.mpr htid) hid

/-- C9 witness: resuming a concrete failed task re-enqueues it and resets it
to PENDING. -/
theorem resume_task_spec_witness :
    resumeDemoState.tasks.find? (fun t => t.id == 0) = some resumeDemoTask ∧
    ((resumeDemoTask.can_resume = true ↔
      (resumeDemoTask.status = .failed ∨ resumeDemoTask.status = .cancelled ∨
        resumeDemoTask.status = .paused)) ∧
    (resumeDemoTask.can_resume = false →
      resume_task resumeDemoState 0 = resumeDemoState) ∧
    (resumeDemoTask.can_resume = true →
      (resume_task resumeDemoState 0).task_queue = resumeDemoState.task_queue ++ [0] ∧
      (resume_task resumeDemoState 0).tasks = resumeDemoState.tasks.map
        (fun t => if t.id == 0 then t.update_status .pending else t) ∧
      ∀ t ∈ (resume_task resumeDemoState 0).tasks, t.id = 0 →
        t.status = .pending)) :=
  ⟨by decide, resume_task_spec resumeDemoState 0 resumeDemoTask (by decide)⟩

/-- C8 (amended): `add_task` itself performs no URL-format validation — an
empty URL absent from the registry is admitted (see the counterexample) — but
the CLI admission layer never lets an empty or invalid URL reach the
pipeline: `handle_input` ignores input that is empty after stripping, and it
dispatches to `manager.add_task` only for text matching `^https?://`. -/
theorem cli_admission_rejects_invalid_urls (text : String) :
    (pyStrip text = "" → handle_input text = .ignore) ∧
    (∀ url, handle_input text = .addTask url →
      url = pyStrip text ∧
      (strStartsWith url "http://" = true ∨
        strStartsWith url "https://" = true)) := by
  constructor
  · intro h
    simp [handle_input, h]
  · intro url h
    simp only [handle_input] at h
    by_cases he : pyStrip text = ""
    · simp [he] at h
    · simp only [he, if_false] at h
      rcases hsplit : pySplit (pyStrip text) with _ | ⟨cmd, args⟩ <;>
        rw [hsplit] at h
      · simp at h
      · simp only at h
        split_ifs at h with h1 h2 h3 h4 h5 h6 h7 <;> simp_all

/-- C8 witness: whitespace-only input is ignored, and an accepted URL
dispatched to `add_task` necessarily starts with `http://` or `https://`. -/
theorem cli_admission_rejects_invalid_urls_witness :
    (pyStrip "  " = "") ∧ handle_input "  " = .ignore ∧
    handle_input "http://example" = .addTask "http://example" ∧
    (strStartsWith "http://example" "http://" = true ∨
      strStartsWith "http://example" "https://" = true) :=
  ⟨by decide, (cli_admission_rejects_invalid_urls "  ").1 (by decide), by decide,
   ((cli_admission_rejects_invalid_urls "http://example").2 "http://example"
     (by decide)).2⟩

/-- C8 counterexample: `add_task` called with the empty URL on a fresh
manager returns true and creates a task — the claim that every empty/invalid
URL passed to `add_task` is rejected (false, no task created) fails. -/
theorem add_task_accepts_empty_url :
    (add_task mgr0 "").1 = true ∧ (add_task mgr0 "").2.tasks.length = 1 := by
  decide

/-- `add_task` on a duplicate URL: reject, no state change. -/
lemma add_task_eq_of_dup (s : ManagerState) (url : String)
    (h : (s.tasks.any fun t => t.url == url) = true) :
    add_task s url = (false, s) := by
  simp [add_task, h]

/-- `add_task` on a fresh URL with queue room: task appended and enqueued. -/
lemma add_task_eq_of_room (s : ManagerState) (url : String)
    (h1 : (s.tasks.any fun t => t.url == url) = false)
    (h2 : s.queueHasRoom = true) :
    add_task s url = (true,
      { tasks := s.tasks ++ [({ id := s.next_id, url := url } : TranscriptionTask)]
        task_queue := s.task_queue ++ [s.next_id]
        max_queue_size := s.max_queue_size
        next_id := s.next_id + 1 }) := by
  have h2' : (ManagerState.queueHasRoom
      { s with
        tasks := s.tasks ++ [({ id := s.next_id, url := url } : TranscriptionTask)],
        next_id := s.next_id + 1 }) = true := h2
  simp [add_task, h1, h2']

/-- `add_task` on a fresh URL with the queue full: the created task is erased
from the registry again and the call fails. -/
lemma add_task_eq_of_full (s : ManagerState) (url : String)
    (h1 : (s.tasks.any fun t => t.url == url) = false)
    (h2 : s.queueHasRoom = false) :
    add_task s url = (false,
      { tasks := (s.tasks ++ [({ id := s.next_id, url := url } :
          TranscriptionTask)]).erase { id := s.next_id, url := url }
        task_queue := s.task_queue
        max_queue_size := s.max_queue_size
        next_id := s.next_id + 1 }) := by
  have h2' : (ManagerState.queueHasRoom
      { s with
        tasks := s.tasks ++ [({ id := s.next_id, url := url } : TranscriptionTask)],
        next_id := s.next_id + 1 }) = false := h2
  simp [add_task, h1, h2']

/-- C4: when a first `add_task` call for a URL succeeds, a second call with
the identical URL returns false, changes nothing (no task is created), and
the registry holds exactly one task with that URL. -/
theorem add_task_duplicate_rejected (s : ManagerState) (url : String)
    (h : (add_task s url).1 = true) :
    (add_task (add_task s url).2 url).1 = false ∧
    (add_task (add_task s url).2 url).2 = (add_task s url).2 ∧
    ((add_task s url).2.tasks.filter (fun t => t.url == url)).length = 1 := by
  by_cases hdup : (s.tasks.any fun t => t.url == url) = true
  · rw [add_task_eq_of_dup s url hdup] at h
    exact absurd h (by simp)
  · rw [Bool.not_eq_true] at hdup
    by_cases hroom : s.queueHasRoom = true
    · rw [add_task_eq_of_room s url hdup hroom] at h ⊢
      have hany : (((s.tasks ++ [({ id := s.next_id, url := url } :
          TranscriptionTask)]) : List TranscriptionTask).any
            fun t => t.url == url) = true := by
        simp
      refine ⟨?_, ?_, ?_⟩
      · rw [add_task_eq_of_dup _ _ hany]
      · rw [add_task_eq_of_dup _ _ hany]
      · simp only [List.filter_append]
        rw [List.filter_eq_nil_iff.mpr ?_]
        · simp
        · intro t ht
          simp only [List.any_eq_false] at hdup
          simpa using hdup t ht
    · rw [Bool.not_eq_true] at hroom
      rw [add_task_eq_of_full s url hdup hroom] at h
      exact absurd h (by simp)

/-- C4 witness: adding the same URL twice to a fresh manager. -/
theorem add_task_duplicate_rejected_witness :
    (add_task mgr0 "http://a").1 = true ∧
    ((add_task (add_task mgr0 "http://a").2 "http://a").1 = false ∧
     (add_task (add_task mgr0 "http://a").2 "http://a").2 =
       (add_task mgr0 "http://a").2 ∧
     ((add_task mgr0 "http://a").2.tasks.filter
       (fun t => t.url == "http://a")).length = 1) :=
  ⟨by decide, add_task_duplicate_rejected mgr0 "http://a" (by decide)⟩

/-- C5: an `add_task` call made while the bounded queue is full returns
false and leaves both registry and queue exactly as they were (the
just-created task is rolled back out of the registry); and in the concrete
runthrough — queue capacity 2, three calls with distinct URLs, no worker
dequeue — the third call returns false and the registry ends with exactly
two tasks. -/
theorem add_task_queue_full_rollback :
    (∀ (s : ManagerState) (url : String),
      0 < s.max_queue_size → s.max_queue_size ≤ s.task_queue.length →
      (∀ t ∈ s.tasks, t.id < s.next_id) →
      (add_task s url).1 = false ∧ (add_task s url).2.tasks = s.tasks ∧
      (add_task s url).2.task_queue = s.task_queue) ∧
    ((add_task (add_task (add_task mgr0 "http://a").2 "http://b").2
        "http://c").1 = false ∧
      (add_task (add_task (add_task mgr0 "http://a").2 "http://b").2
        "http://c").2.tasks.length = 2) := by
  constructor
  · intro s url hpos hfull hfresh
    by_cases hdup : (s.tasks.any fun t => t.url == url) = true
    · rw [add_task_eq_of_dup s url hdup]
      exact ⟨rfl, rfl, rfl⟩
    · rw [Bool.not_eq_true] at hdup
      have hroom : s.queueHasRoom = false := by
        simp only [ManagerState.queueHasRoom, Bool.or_eq_false_iff]
        constructor
        · simp only [beq_eq_false_iff_ne, ne_eq]
          omega
        · simp only [decide_eq_false_iff_not, not_lt]
          exact hfull
      rw [add_task_eq_of_full s url hdup hroom]
      have hnotmem : ({ id := s.next_id, url := url } : TranscriptionTask) ∉
          s.tasks := by
        intro hmem
        have := hfresh _ hmem
        simp at this
      refine ⟨rfl, ?_, rfl⟩
      simp only
      rw [List.erase_append_right _ hnotmem, List.erase_cons_head]
      simp
  · exact ⟨by decide, by decide⟩

/-- C5 witness: the general full-queue part applied to a manager whose
capacity-2 queue already holds two tasks. -/
theorem add_task_queue_full_rollback_witness :
    0 < mgrFull.max_queue_size ∧
    mgrFull.max_queue_size ≤ mgrFull.task_queue.length ∧
    (∀ t ∈ mgrFull.tasks, t.id < mgrFull.next_id) ∧
    ((add_task mgrFull "http://c").1 = false ∧
     (add_task mgrFull "http://c").2.tasks = mgrFull.tasks ∧
     (add_task mgrFull "http://c").2.task_queue = mgrFull.task_queue) :=
  ⟨by decide, by decide, by decide,
   add_task_queue_full_rollback.1 mgrFull "http://c" (by decide) (by decide)
     (by decide)⟩

/-- The overall flag of the transcription fold: the initial flag and-ed with
per-chunk API success; one chunk's failure makes it false without influencing
the remaining iterations. -/
lemma transcribeFold_fst (api : String → Option Transcription)
    (chunks : List ChunkInfo) (b : Bool)
    (files : List (String × Transcription)) (log : List String) :
    (chunks.foldl (transcribeStep api) (b, files, log)).1 =
      (b && chunks.all fun c => (api c.stem).isSome) := by
  induction chunks generalizing b files log with
  | nil => simp
  | cons c cs ih =>
    rcases h : api c.stem with _ | tr <;>
      simp [transcribeStep, transcribe_chunk, h, ih, Bool.and_assoc]

/-- The attempt log of the transcription fold: every chunk is attempted, in
manifest order, regardless of failures. -/
lemma transcribeFold_log (api : String → Option Transcription)
    (chunks : List ChunkInfo) (b : Bool)
    (files : List (String × Transcription)) (log : List String) :
    (chunks.foldl (transcribeStep api) (b, files, log)).2.2 =
      log ++ chunks.map (fun c => c.stem) := by
  induction chunks generalizing b files log with
  | nil => simp
  | cons c cs ih =>
    rcases h : api c.stem with _ | tr <;>
      simp [transcribeStep, transcribe_chunk, h, ih]

/-- A transcript file present before the fold is still present after it. -/
lemma transcribeFold_lookup_mono (api : String → Option Transcription)
    (chunks : List ChunkInfo) (b : Bool)
    (files : List (String × Transcription)) (log : List String) (st : String)
    (h : (List.lookup st files).isSome = true) :
    (List.lookup st
      (chunks.foldl (transcribeStep api) (b, files, log)).2.1).isSome = true := by
  induction chunks generalizing b files log with
  | nil =>
    simp only [List.foldl_nil]
    exact h
  | cons c cs ih =>
    rcases hc : api c.stem with _ | tr
    · simp only [List.foldl_cons, transcribeStep, transcribe_chunk, hc]
      exact ih _ _ _ h
    · simp only [List.foldl_cons, transcribeStep, transcribe_chunk, hc]
      refine ih _ _ _ ?_
      by_cases he : (st == c.stem) = true <;>
        simp [writeTranscript, List.lookup, he, h]

/-- After the fold, every chunk whose API call succeeded has a transcript
file on disk. -/
lemma transcribeFold_persists (api : String → Option Transcription)
    (chunks : List ChunkInfo) (b : Bool)
    (files : List (String × Transcription)) (log : List String)
    (c : ChunkInfo) (hmem : c ∈ chunks) (hok : (api c.stem).isSome = true) :
    (List.lookup c.stem
      (chunks.foldl (transcribeStep api) (b, files, log)).2.1).isSome = true := by
  induction chunks generalizing b files log with
  | nil => simp at hmem
  | cons d ds ih =>
    rcases List.mem_cons.mp hmem with rfl | hmem'
    · rcases hc : api c.stem with _ | tr
      · rw [hc] at hok
        simp at hok
      · refine transcribeFold_lookup_mono api ds _ _ _ c.stem ?_
        simp [transcribeStep, transcribe_chunk, hc, writeTranscript,
          List.lookup]
    · rcases hc : api d.stem with _ | tr <;>
        simp only [List.foldl_cons, transcribeStep, transcribe_chunk, hc] <;>
        exact ih _ _ _ hmem'

/-- C7: if at least one chunk of a (non-empty) manifest fails transcription,
`transcribe_all_chunks` reports failure for the stage as a whole, yet each
chunk whose transcription succeeded still has its transcript file persisted
on disk afterwards. -/
theorem transcribe_all_conservative (api : String → Option Transcription)
    (files : List (String × Transcription)) (chunks : List ChunkInfo)
    (hne : chunks ≠ [])
    (hfail : ∃ c ∈ chunks, api c.stem = none) :
    (transcribe_all_chunks api files chunks).1 = false ∧
    (∀ c ∈ chunks, (api c.stem).isSome = true →
      (List.lookup c.stem
        (transcribe_all_chunks api files chunks).2.1).isSome = true) := by
  have hempty : chunks.isEmpty = false := by
    simpa [List.isEmpty_iff] using hne
  constructor
  · simp only [transcribe_all_chunks, hempty, Bool.false_eq_true, if_false]
    rw [transcribeFold_fst]
    rcases hfail with ⟨c, hmem, hc⟩
    have : (chunks.all fun c => (api c.stem).isSome) = false := by
      rw [List.all_eq_false]
      exact ⟨c, hmem, by simp [hc]⟩
    simp [this]
  · intro c hmem hok
    simp only [transcribe_all_chunks, hempty, Bool.false_eq_true, if_false]
    exact transcribeFold_persists api chunks true files [] c hmem hok

/-- C7 witness: two chunks, the first fails, the second succeeds — the stage
fails overall while the second chunk's transcript is persisted. -/
theorem transcribe_all_conservative_witness :
    ([chunkS0, chunkS1] ≠ ([] : List ChunkInfo)) ∧
    (∃ c ∈ [chunkS0, chunkS1], apiDemo c.stem = none) ∧
    ((transcribe_all_chunks apiDemo [] [chunkS0, chunkS1]).1 = false ∧
     (∀ c ∈ [chunkS0, chunkS1], (apiDemo c.stem).isSome = true →
       (List.lookup c.stem
         (transcribe_all_chunks apiDemo [] [chunkS0, chunkS1]).2.1).isSome = true)) :=
  ⟨by decide, ⟨chunkS0, by decide, by decide⟩,
   transcribe_all_conservative apiDemo [] [chunkS0, chunkS1] (by decide)
     ⟨chunkS0, by decide, by decide⟩⟩

/-- C10: `transcribe_all_chunks` attempts every chunk of a non-empty manifest
in manifest order — an earlier chunk's failure does not stop the loop, it
only forces the overall flag to false (the flag equals the conjunction of all
per-chunk outcomes). -/
theorem transcribe_all_attempts_every_chunk (api : String → Option Transcription)
    (files : List (String × Transcription)) (chunks : List ChunkInfo)
    (hne : chunks ≠ []) :
    (transcribe_all_chunks api files chunks).2.2 =
      chunks.map (fun c => c.stem) ∧
    (transcribe_all_chunks api files chunks).1 =
      (chunks.all fun c => (api c.stem).isSome) := by
  have hempty : chunks.isEmpty = false := by
    simpa [List.isEmpty_iff] using hne
  constructor
  · simp only [transcribe_all_chunks, hempty, Bool.false_eq_true, if_false]
    rw [transcribeFold_log]
    simp
  · simp only [transcribe_all_chunks, hempty, Bool.false_eq_true, if_false]
    rw [transcribeFold_fst]
    simp

/-- C10 witness: with the first of two chunks failing, both chunks are still
attempted, in order. -/
theorem transcribe_all_attempts_every_chunk_witness :
    ([chunkS0, chunkS1] ≠ ([] : List ChunkInfo)) ∧
    ((transcribe_all_chunks apiDemo [] [chunkS0, chunkS1]).2.2 =
       [chunkS0, chunkS1].map (fun c => c.stem) ∧
     (transcribe_all_chunks apiDemo [] [chunkS0, chunkS1]).1 =
       ([chunkS0, chunkS1].all fun c => (apiDemo c.stem).isSome)) :=
  ⟨by decide,
   transcribe_all_attempts_every_chunk apiDemo [] [chunkS0, chunkS1] (by decide)⟩

/-- Merging never touches the per-chunk transcript files. -/
lemma merge_transcripts_files_eq (fs : TranscriptsFS) (chunks : List ChunkInfo)
    (timestamp : String) :
    (merge_transcripts fs chunks timestamp).2.files = fs.files := by
  unfold merge_transcripts
  split_ifs <;> rfl

/-- C3: re-running merge on the same persisted chunk transcripts produces the
identical concatenated text and the identical total word count (the two runs
differ at most in their timestamp field), and neither run mutates the
per-chunk transcript files it reads. -/
theorem merge_transcripts_idempotent (fs : TranscriptsFS)
    (chunks : List ChunkInfo) (t1 t2 : String) :
    (merge_transcripts fs chunks t1).2.files = fs.files ∧
    (merge_transcripts ((merge_transcripts fs chunks t1).2) chunks t2).2.files
      = fs.files ∧
    ((merge_transcripts ((merge_transcripts fs chunks t1).2) chunks t2).1.map
        (fun m => (m.text, m.total_words))
      = (merge_transcripts fs chunks t1).1.map
          (fun m => (m.text, m.total_words))) := by
  have hf := merge_transcripts_files_eq fs chunks t1
  refine ⟨hf, ?_, ?_⟩
  · rw [merge_transcripts_files_eq, hf]
  · conv_lhs => rw [merge_transcripts]
    conv_rhs => rw [merge_transcripts]
    rw [hf]
    split_ifs <;> simp [mergeDoc]

/-- When every extraction succeeds, the splitter loop keeps every attempted
chunk. -/
lemma splitChunks_all_ok (cfg : SplitterConfig) (D size : ℚ)
    (ok : Nat → Bool) (stem : Nat → String) (l : List ℕ)
    (h : ∀ i ∈ l, ok i = true) :
    (l.filterMap fun i =>
      if ok i then
        some (create_chunk_metadata (stem i)
          (chunkStart cfg i * 1000) (chunkEnd cfg D size i * 1000) i)
      else none) =
    l.map fun i =>
      create_chunk_metadata (stem i)
        (chunkStart cfg i * 1000) (chunkEnd cfg D size i * 1000) i := by
  induction l with
  | nil => rfl
  | cons a l ih =>
    rw [List.filterMap_cons, List.map_cons, h a (by simp), ih]
    · simp
    · intro i hi
      exact h i (by simp [hi])

/-- A chunk's (possibly shrunk) end never crosses the next chunk's start. -/
lemma chunkEnd_le_next (cfg : SplitterConfig) (D size : ℚ) (i : ℕ)
    (hD : 0 < D) (hT : 0 < cfg.chunk_duration_sec) (hsize : 0 ≤ size)
    (hcap : 0 ≤ cfg.chunk_max_size_bytes)
    (hi : (i : ℚ) * cfg.chunk_duration_sec < D) :
    chunkEnd cfg D size i ≤ ((i : ℚ) + 1) * cfg.chunk_duration_sec := by
  simp only [chunkEnd, chunkStart]
  split_ifs with hest
  · set T := cfg.chunk_duration_sec with hTdef
    set endt := min (((i : ℚ) + 1) * T) D with hendt
    have hstartlt : (i : ℚ) * T < endt := by
      refine lt_min ?_ hi
      nlinarith
    have hest0 : 0 < (endt - (i : ℚ) * T) / D * size :=
      lt_of_le_of_lt hcap hest
    have hr1 : cfg.chunk_max_size_bytes / ((endt - (i : ℚ) * T) / D * size) < 1 :=
      (div_lt_one hest0).mpr hest
    have hr0 : 0 ≤ cfg.chunk_max_size_bytes / ((endt - (i : ℚ) * T) / D * size) :=
      div_nonneg hcap hest0.le
    have hshrunk : (endt - (i : ℚ) * T) *
        (cfg.chunk_max_size_bytes / ((endt - (i : ℚ) * T) / D * size)) ≤
        endt - (i : ℚ) * T := by
      nlinarith
    have hmin : endt ≤ ((i : ℚ) + 1) * T := min_le_left _ _
    linarith
  · exact min_le_left _ _

/-- C2: for a positive source duration `D`, positive target chunk duration,
non-negative source size and size cap, and with every chunk extraction
succeeding, `split_audio` produces a manifest of exactly `⌈D / T⌉` chunks
whose indices are exactly `0, …, N-1` in order, whose start offsets are
non-decreasing, and in which each chunk's end does not exceed the next
chunk's start. -/
theorem split_audio_manifest_invariant (cfg : SplitterConfig) (D size : ℚ)
    (ok : Nat → Bool) (stem : Nat → String)
    (hD : 0 < D) (hT : 0 < cfg.chunk_duration_sec)
    (hsize : 0 ≤ size) (hcap : 0 ≤ cfg.chunk_max_size_bytes)
    (hok : ∀ i, ok i = true) :
    ∃ chunks, split_audio cfg D size ok stem = some chunks ∧
      (chunks.length : ℤ) = ⌈D / cfg.chunk_duration_sec⌉ ∧
      (∀ i, ∀ h : i < chunks.length, (chunks.get ⟨i, h⟩).chunk_index = i) ∧
      (∀ i, ∀ h : i + 1 < chunks.length,
        (chunks.get ⟨i, Nat.lt_of_succ_lt h⟩).start_ms ≤
          (chunks.get ⟨i + 1, h⟩).start_ms ∧
        (chunks.get ⟨i, Nat.lt_of_succ_lt h⟩).end_ms ≤
          (chunks.get ⟨i + 1, h⟩).start_ms) := by
  have hceil : 0 < ⌈D / cfg.chunk_duration_sec⌉ :=
    Int.ceil_pos.mpr (div_pos hD hT)
  have htoNat := Int.toNat_of_nonneg hceil.le
  have hNval : (num_chunks cfg D : ℤ) = ⌈D / cfg.chunk_duration_sec⌉ := by
    unfold num_chunks
    omega
  have hNpos : 0 < num_chunks cfg D := by
    unfold num_chunks
    omega
  have hinfo : splitChunksInfo cfg D size ok stem =
      (List.range (num_chunks cfg D)).map fun i =>
        create_chunk_metadata (stem i)
          (chunkStart cfg i * 1000) (chunkEnd cfg D size i * 1000) i := by
    unfold splitChunksInfo
    exact splitChunks_all_ok cfg D size ok stem _ (fun i _ => hok i)
  refine ⟨(List.range (num_chunks cfg D)).map fun i =>
    create_chunk_metadata (stem i)
      (chunkStart cfg i * 1000) (chunkEnd cfg D size i * 1000) i,
    ?_, ?_, ?_, ?_⟩
  · unfold split_audio
    rw [hinfo, if_neg ?_]
    intro hcontra
    rw [List.isEmpty_iff, List.map_eq_nil_iff, List.range_eq_nil] at hcontra
    omega
  · simpa using hNval
  · intro i h
    simp [List.get_eq_getElem, create_chunk_metadata]
  · intro i h
    simp only [List.length_map, List.length_range] at h
    have hiq : (i : ℚ) * cfg.chunk_duration_sec < D := by
      have hstep1 : ((i : ℤ) + 1) < ⌈D / cfg.chunk_duration_sec⌉ := by
        omega
      have hstep2 : ((i : ℚ) + 1) < (⌈D / cfg.chunk_duration_sec⌉ : ℚ) := by
        exact_mod_cast hstep1
      have hstep3 : (⌈D / cfg.chunk_duration_sec⌉ : ℚ) <
          D / cfg.chunk_duration_sec + 1 := Int.ceil_lt_add_one _
      have hstep4 : (i : ℚ) < D / cfg.chunk_duration_sec := by linarith
      exact (lt_div_iff hT).mp hstep4
    constructor
    · simp only [List.get_eq_getElem, List.getElem_map, List.getElem_range,
        create_chunk_metadata]
      have : chunkStart cfg i ≤ chunkStart cfg (i + 1) := by
        simp only [chunkStart]
        push_cast
        nlinarith
      linarith
    · simp only [List.get_eq_getElem, List.getElem_map, List.getElem_range,
        create_chunk_metadata]
      have hend := chunkEnd_le_next cfg D size i hD hT hsize hcap hiq
      have : chunkEnd cfg D size i ≤ chunkStart cfg (i + 1) := by
        simp only [chunkStart]
        push_cast
        linarith
      linarith

/-- C2 witness: a 450-second source split with a 300-second target chunk
duration and a 25 MB cap. -/
theorem split_audio_manifest_invariant_witness :
    (0 : ℚ) < 450 ∧ (0 : ℚ) < (300 : ℚ) ∧ (0 : ℚ) ≤ 1000 ∧
    (0 : ℚ) ≤ (25 * 1024 * 1024 : ℚ) ∧
    (∃ chunks,
      split_audio ⟨25 * 1024 * 1024, 300⟩ 450 1000 (fun _ => true)
        (fun i => toString i) = some chunks ∧
      (chunks.length : ℤ) = ⌈(450 : ℚ) / (300 : ℚ)⌉ ∧
      (∀ i, ∀ h : i < chunks.length, (chunks.get ⟨i, h⟩).chunk_index = i) ∧
      (∀ i, ∀ h : i + 1 < chunks.length,
        (chunks.get ⟨i, Nat.lt_of_succ_lt h⟩).start_ms ≤
          (chunks.get ⟨i + 1, h⟩).start_ms ∧
        (chunks.get ⟨i, Nat.lt_of_succ_lt h⟩).end_ms ≤
          (chunks.get ⟨i + 1, h⟩).start_ms)) :=
  ⟨by norm_num, by norm_num, by norm_num, by norm_num,
   split_audio_manifest_invariant ⟨25 * 1024 * 1024, 300⟩ 450 1000
     (fun _ => true) (fun i => toString i) (by norm_num) (by norm_num)
     (by norm_num) (by norm_num) (fun _ => rfl)⟩

/-- When a chunk's transcript is present, one merge-loop iteration appends
that chunk's segments shifted by the running duration, and then advances the
running duration by the chunk's manifest duration. -/
lemma processChunk_some (files : List (String × Transcription)) (acc : MergeAcc)
    (c : ChunkInfo) (tr : Transcription)
    (h : List.lookup c.stem files = some tr) :
    (processChunk files acc c).merged_segments =
      acc.merged_segments ++ tr.segments.map (fun (seg : Segment) =>
        ({ start := seg.start + acc.total_duration
           «end» := seg.«end» + acc.total_duration } : Segment)) ∧
    (processChunk files acc c).total_duration =
      acc.total_duration + c.duration_ms / 1000 := by
  simp only [processChunk, h]
  split_ifs <;> simp

/-- Over chunks whose transcripts are all present, the merge loop realizes
exactly the spec's re-basing: each chunk's segments shifted by the cumulative
duration of all chunks before it. -/
lemma mergeFold_segments (files : List (String × Transcription))
    (chunks : List ChunkInfo) (acc : MergeAcc)
    (hall : ∀ c ∈ chunks, (List.lookup c.stem files).isSome = true) :
    (chunks.foldl (processChunk files) acc).merged_segments =
      acc.merged_segments ++
        specMergedSegments files chunks acc.total_duration := by
  induction chunks generalizing acc with
  | nil => simp [specMergedSegments]
  | cons c cs ih =>
    obtain ⟨tr, htr⟩ := Option.isSome_iff_exists.mp (hall c (by simp))
    have hp := processChunk_some files acc c tr htr
    rw [List.foldl_cons, ih _ (fun d hd => hall d (by simp [hd])), hp.1, hp.2]
    simp [specMergedSegments, htr, List.append_assoc]

/-- A missing (or unparseable) transcript file makes the merge loop skip the
chunk entirely — its duration included. -/
lemma processChunk_none (files : List (String × Transcription)) (acc : MergeAcc)
    (c : ChunkInfo) (h : List.lookup c.stem files = none) :
    processChunk files acc c = acc := by
  simp [processChunk, h]

/-- Sorting a manifest already sorted by `chunk_index` is the identity. -/
lemma sortChunks_of_sorted (l : List ChunkInfo)
    (h : List.Chain' (fun a b => a.chunk_index ≤ b.chunk_index) l) :
    sortChunks l = l := by
  induction l with
  | nil => rfl
  | cons c cs ih =>
    have hcs : sortChunks cs = cs := ih h.tail
    unfold sortChunks at hcs ⊢
    rw [List.foldr_cons, hcs]
    cases cs with
    | nil => rfl
    | cons d ds =>
      have hle : c.chunk_index ≤ d.chunk_index := (List.chain'_cons.mp h).1
      simp [insertByIndex, hle]

/-- C1 (amended): when the manifest is indexed contiguously from 0 and every
chunk's transcript file is present, each sub-segment of chunk `i` appears in
the merged output shifted by the cumulative manifest-recorded duration of all
prior chunks `0..i-1` (the behavior `specMergedSegments` written from the
spec §4.4, which in particular puts a local offset 10 s of chunk 2 after
100 s + 95 s at 205 s); when some prior chunk's transcript is missing, the
code skips that chunk's duration as well, so the shift only accumulates the
durations of prior chunks whose transcripts were loaded (see the
counterexample). -/
theorem merge_rebase_cumulative (fs : TranscriptsFS)
    (chunks : List ChunkInfo) (ts : String)
    (hidx : ∀ i, ∀ h : i < chunks.length, (chunks.get ⟨i, h⟩).chunk_index = i)
    (hall : ∀ c ∈ chunks, (List.lookup c.stem fs.files).isSome = true) :
    ∀ mj, (merge_transcripts fs chunks ts).1 = some mj →
      mj.segments = specMergedSegments fs.files chunks 0 := by
  intro mj hmj
  have hchain : List.Chain'
      (fun a b : ChunkInfo => a.chunk_index ≤ b.chunk_index) chunks := by
    rw [List.chain'_iff_get]
    intro i hlt
    rw [hidx, hidx]
    omega
  have hsort := sortChunks_of_sorted chunks hchain
  unfold merge_transcripts at hmj
  split_ifs at hmj
  have hmj' : mergeDoc fs.files chunks ts = mj := by
    simpa using hmj
  rw [← hmj']
  have hseg : (mergeDoc fs.files chunks ts).segments =
      (mergeAcc fs.files chunks).merged_segments := rfl
  rw [hseg]
  unfold mergeAcc
  rw [hsort, mergeFold_segments fs.files chunks ⟨[], [], 0, 0⟩ hall]
  simp

/-- C1 witness: three chunks of actual durations 100 s, 95 s, 100 s, all
transcripts present — the theorem applies, and the segment at local offset
10 s in chunk 2 appears at merged offset 205 s. -/
theorem merge_rebase_cumulative_witness :
    (∀ i, ∀ h : i < ([witChunk0, witChunk1, witChunk2] : List ChunkInfo).length,
      (([witChunk0, witChunk1, witChunk2] :
        List ChunkInfo).get ⟨i, h⟩).chunk_index = i) ∧
    (∀ c ∈ ([witChunk0, witChunk1, witChunk2] : List ChunkInfo),
      (List.lookup c.stem witFS.files).isSome = true) ∧
    (∀ mj, (merge_transcripts witFS [witChunk0, witChunk1, witChunk2] "t").1
        = some mj →
      mj.segments =
        specMergedSegments witFS.files [witChunk0, witChunk1, witChunk2] 0) ∧
    ((merge_transcripts witFS [witChunk0, witChunk1, witChunk2] "t").1.map
        (fun m => m.segments)
      = some [{ start := 205, «end» := 207 }]) := by
  refine ⟨by decide, by decide,
    merge_rebase_cumulative witFS [witChunk0, witChunk1, witChunk2] "t"
      (by decide) (by decide), ?_⟩
  have hacc : mergeAcc witFS.files [witChunk0, witChunk1, witChunk2] =
      { merged_text := [pyStrip "a", pyStrip "b", pyStrip "c"]
        merged_segments := [{
          start := (10 : ℚ) +
            ((0 + witChunk0.duration_ms / 1000) + witChunk1.duration_ms / 1000)
          «end» := (12 : ℚ) +
            ((0 + witChunk0.duration_ms / 1000) + witChunk1.duration_ms / 1000) }]
        total_duration :=
          ((0 + witChunk0.duration_ms / 1000) + witChunk1.duration_ms / 1000) +
            witChunk2.duration_ms / 1000
        total_words :=
          ((0 + wordCount (pyStrip "a")) + wordCount (pyStrip "b")) +
            wordCount (pyStrip "c") } := rfl
  have h1 : ¬(([witChunk0, witChunk1, witChunk2] :
      List ChunkInfo).isEmpty = true) := by
    decide
  have h2 : ¬((mergeAcc witFS.files
      [witChunk0, witChunk1, witChunk2]).merged_text.isEmpty = true) := by
    rw [hacc]
    decide
  unfold merge_transcripts
  rw [if_neg h1, if_neg h2]
  show some ((mergeAcc witFS.files
      [witChunk0, witChunk1, witChunk2]).merged_segments) =
    some [{ start := 205, «end» := 207 }]
  rw [hacc]
  norm_num [witChunk0, witChunk1]

/-- C1 counterexample: two 100 s chunks with chunk 0's transcript file
missing — the claim demands chunk 1's segment at merged offset 110 s
(local 10 s plus the 100 s of prior chunk 0, as `specMergedSegments`
computes), but the code, which skips a missing chunk before accumulating its
duration, leaves it at offset 10 s. -/
theorem merge_rebase_counterexample :
    ((merge_transcripts cexFS [cexChunk0, cexChunk1] "t").1.map
        (fun m => m.segments) = some [{ start := 10, «end» := 20 }]) ∧
    specMergedSegments cexFS.files [cexChunk0, cexChunk1] 0 =
      [{ start := 110, «end» := 120 }] ∧
    (some [({ start := 10, «end» := 20 } : Segment)] ≠
      some [({ start := 110, «end» := 120 } : Segment)]) := by
  refine ⟨?_, ?_, ?_⟩
  · have hacc : mergeAcc cexFS.files [cexChunk0, cexChunk1] =
        { merged_text := [pyStrip "hello"]
          merged_segments := [{ start := (10 : ℚ) + 0, «end» := (20 : ℚ) + 0 }]
          total_duration := 0 + cexChunk1.duration_ms / 1000
          total_words := 0 + wordCount (pyStrip "hello") } := rfl
    have h1 : ¬(([cexChunk0, cexChunk1] : List ChunkInfo).isEmpty = true) := by
      decide
    have h2 : ¬((mergeAcc cexFS.files
        [cexChunk0, cexChunk1]).merged_text.isEmpty = true) := by
      rw [hacc]
      decide
    unfold merge_transcripts
    rw [if_neg h1, if_neg h2]
    show some ((mergeAcc cexFS.files [cexChunk0, cexChunk1]).merged_segments) =
      some [{ start := 10, «end» := 20 }]
    rw [hacc]
    norm_num
  · have h0 : List.lookup cexChunk0.stem cexFS.files = none := rfl
    have h1 : List.lookup cexChunk1.stem cexFS.files =
        some { text := "hello", segments := [{ start := 10, «end» := 20 }] } := rfl
    simp only [specMergedSegments, h0, h1, List.nil_append, List.map_cons,
      List.map_nil]
    norm_num [cexChunk0, cexChunk1, Segment.mk.injEq]
  · intro hcontra
    have : (10 : ℚ) = 110 := by
      have := List.head_eq_of_cons_eq (Option.some_inj.mp hcontra)
      exact congrArg Segment.start this
    norm_num at this

end Transcriber
